import Mathlib

/-
Verification development for the HCIS multi-modal authenticity scoring
pipeline: three per-modality analyzers (video, audio, text) and an adaptive
fusion engine.  Numeric code is embedded over the rationals; calls into
external libraries (face detector, spectral feature extractor, sentence
embedding model) are modelled as oracle inputs constrained to the ranges
those libraries guarantee.
-/

namespace HCIS

/-- The three input channels handled by the system. -/
inductive Modality where
  | video
  | audio
  | text
deriving DecidableEq, Repr

/-- Verdict labels produced by the fusion engine. -/
inductive Verdict where
  | AUTHENTIC
  | SUSPICIOUS
  | LIKELY_FAKE
  | ERROR
deriving DecidableEq, Repr

/-! ### Rounding

Embedding of the Python builtin `round(x, n)`: round half to even at `n`
decimal digits. -/

/-- Round a rational to the nearest integer, halves to the even neighbour. -/
def roundHalfEven (x : ℚ) : ℤ :=
  if x < ⌊x⌋ + 1/2 then ⌊x⌋
  else if (⌊x⌋ + 1/2 : ℚ) < x then ⌊x⌋ + 1
  else if ⌊x⌋ % 2 = 0 then ⌊x⌋ else ⌊x⌋ + 1

/-- Embedding of the Python builtin round(x, n). -/
def pyRound (x : ℚ) (n : ℕ) : ℚ :=
  (roundHalfEven (x * 10 ^ n) : ℚ) / 10 ^ n

theorem roundHalfEven_ge_floor (x : ℚ) : ⌊x⌋ ≤ roundHalfEven x := by
  unfold roundHalfEven
  split
  · exact le_refl _
  · split
    · exact le_of_lt (lt_add_one _)
    · split
      · exact le_refl _
      · exact le_of_lt (lt_add_one _)

theorem roundHalfEven_le_ceil (x : ℚ) : roundHalfEven x ≤ ⌈x⌉ := by
  have hfc : ⌊x⌋ ≤ ⌈x⌉ := Int.floor_le_ceil x
  unfold roundHalfEven
  split
  · exact hfc
  · rename_i h1
    push_neg at h1
    have hlt : (⌊x⌋ : ℚ) < x := by linarith
    have hceil : ⌊x⌋ + 1 ≤ ⌈x⌉ := by
      have := Int.lt_ceil.mpr hlt
      omega
    split
    · exact hceil
    · split
      · exact hfc
      · exact hceil

theorem abs_roundHalfEven_sub (x : ℚ) : |(roundHalfEven x : ℚ) - x| ≤ 1/2 := by
  have hfr : (⌊x⌋ : ℚ) ≤ x := Int.floor_le x
  have hfr2 : x < ⌊x⌋ + 1 := Int.lt_floor_add_one x
  rw [abs_le]
  unfold roundHalfEven
  split
  · rename_i h1
    constructor
    · linarith
    · linarith
  · rename_i h1
    push_neg at h1
    split
    · rename_i h2
      push_cast
      constructor
      · linarith
      · linarith
    · rename_i h2
      push_neg at h2
      split
      · constructor
        · linarith
        · linarith
      · push_cast
        constructor
        · linarith
        · linarith

theorem pyRound_nonneg (x : ℚ) (n : ℕ) (h : 0 ≤ x) : 0 ≤ pyRound x n := by
  unfold pyRound
  apply div_nonneg _ (by positivity)
  have h0 : (0 : ℤ) ≤ ⌊x * 10 ^ n⌋ := by
    apply Int.floor_nonneg.mpr
    positivity
  have := roundHalfEven_ge_floor (x * 10 ^ n)
  exact_mod_cast le_trans h0 this

theorem pyRound_le_of_le (x : ℚ) (n : ℕ) (b : ℤ) (h : x ≤ b) :
    pyRound x n ≤ b := by
  unfold pyRound
  rw [div_le_iff (by positivity)]
  have hxb : x * 10 ^ n ≤ (b * 10 ^ n : ℤ) := by
    push_cast
    have hp : (0 : ℚ) < 10 ^ n := by positivity
    exact mul_le_mul_of_nonneg_right h (le_of_lt hp)
  have hceil : ⌈x * 10 ^ n⌉ ≤ b * 10 ^ n := Int.ceil_le.mpr hxb
  have := roundHalfEven_le_ceil (x * 10 ^ n)
  have hr : roundHalfEven (x * 10 ^ n) ≤ b * 10 ^ n := le_trans this hceil
  calc (roundHalfEven (x * 10 ^ n) : ℚ) ≤ ((b * 10 ^ n : ℤ) : ℚ) := by exact_mod_cast hr
    _ = (b : ℚ) * 10 ^ n := by push_cast; ring

theorem pyRound_ge_of_ge (x : ℚ) (n : ℕ) (b : ℤ) (h : (b : ℚ) ≤ x) :
    (b : ℚ) ≤ pyRound x n := by
  unfold pyRound
  rw [le_div_iff (by positivity)]
  have hxb : ((b * 10 ^ n : ℤ) : ℚ) ≤ x * 10 ^ n := by
    push_cast
    have hp : (0 : ℚ) < 10 ^ n := by positivity
    exact mul_le_mul_of_nonneg_right h (le_of_lt hp)
  have hfloor : b * 10 ^ n ≤ ⌊x * 10 ^ n⌋ := Int.le_floor.mpr hxb
  have := roundHalfEven_ge_floor (x * 10 ^ n)
  have hr : b * 10 ^ n ≤ roundHalfEven (x * 10 ^ n) := le_trans hfloor this
  calc (b : ℚ) * 10 ^ n = ((b * 10 ^ n : ℤ) : ℚ) := by push_cast; ring
    _ ≤ (roundHalfEven (x * 10 ^ n) : ℚ) := by exact_mod_cast hr

theorem abs_pyRound_sub (x : ℚ) (n : ℕ) :
    |pyRound x n - x| ≤ 1 / (2 * 10 ^ n) := by
  have hp : (0 : ℚ) < 10 ^ n := by positivity
  have key := abs_roundHalfEven_sub (x * 10 ^ n)
  have hs : pyRound x n - x = ((roundHalfEven (x * 10 ^ n) : ℚ) - x * 10 ^ n) / 10 ^ n := by
    unfold pyRound
    field_simp
    ring
  rw [hs, abs_div, abs_of_pos hp, div_le_div_iff hp (by positivity)]
  calc |(roundHalfEven (x * 10 ^ n) : ℚ) - x * 10 ^ n| * (2 * 10 ^ n)
      ≤ (1/2) * (2 * 10 ^ n) := by
        apply mul_le_mul_of_nonneg_right key (by positivity)
    _ = 1 * 10 ^ n := by ring

theorem roundHalfEven_intCast (k : ℤ) : roundHalfEven (k : ℚ) = k := by
  unfold roundHalfEven
  rw [Int.floor_intCast]
  norm_num

theorem pyRound_intCast (k : ℤ) (n : ℕ) : pyRound (k : ℚ) n = k := by
  unfold pyRound
  have h1 : ((k : ℚ) * 10 ^ n) = ((k * 10 ^ n : ℤ) : ℚ) := by push_cast; ring
  rw [h1, roundHalfEven_intCast]
  push_cast
  rw [mul_div_assoc]
  rw [div_self (by positivity : ((10 : ℚ) ^ n) ≠ 0)]
  try ring

theorem pyRound_natCast (k : ℕ) (n : ℕ) : pyRound (k : ℚ) n = k := by
  have h : ((k : ℚ)) = ((k : ℤ) : ℚ) := by push_cast; try ring
  rw [h, pyRound_intCast]

/-! ### List statistics (embeddings of numpy mean and var) -/

/-- Embedding of numpy mean over a list of rationals. -/
def listMean (l : List ℚ) : ℚ := l.sum / l.length

/-- Embedding of numpy var (population variance) over a list of rationals. -/
def listVar (l : List ℚ) : ℚ :=
  (l.map (fun x => (x - listMean l) ^ 2)).sum / l.length

theorem listMean_nonneg {l : List ℚ} (h : ∀ x ∈ l, 0 ≤ x) : 0 ≤ listMean l := by
  unfold listMean
  apply div_nonneg (List.sum_nonneg h) (by positivity)

theorem listVar_nonneg (l : List ℚ) : 0 ≤ listVar l := by
  unfold listVar
  apply div_nonneg _ (by positivity)
  apply List.sum_nonneg
  intro x hx
  rcases List.mem_map.mp hx with ⟨y, _, rfl⟩
  positivity

theorem list_sum_le {l : List ℚ} {b : ℚ} (h : ∀ x ∈ l, x ≤ b) :
    l.sum ≤ l.length * b := by
  induction l with
  | nil => simp
  | cons a t ih =>
    simp only [List.sum_cons, List.length_cons]
    have ha := h a (List.mem_cons_self a t)
    have ht := ih (fun x hx => h x (List.mem_cons_of_mem a hx))
    push_cast
    nlinarith

theorem list_le_sum {l : List ℚ} {b : ℚ} (h : ∀ x ∈ l, b ≤ x) :
    l.length * b ≤ l.sum := by
  induction l with
  | nil => simp
  | cons a t ih =>
    simp only [List.sum_cons, List.length_cons]
    have ha := h a (List.mem_cons_self a t)
    have ht := ih (fun x hx => h x (List.mem_cons_of_mem a hx))
    push_cast
    nlinarith

theorem listMean_le {l : List ℚ} {b : ℚ} (hne : l ≠ []) (h : ∀ x ∈ l, x ≤ b) :
    listMean l ≤ b := by
  unfold listMean
  have hlen : (0 : ℚ) < l.length := by
    have := List.length_pos.mpr hne
    exact_mod_cast this
  rw [div_le_iff hlen]
  have := list_sum_le h
  linarith [this]

theorem le_listMean {l : List ℚ} {b : ℚ} (hne : l ≠ []) (h : ∀ x ∈ l, b ≤ x) :
    b ≤ listMean l := by
  unfold listMean
  have hlen : (0 : ℚ) < l.length := by
    have := List.length_pos.mpr hne
    exact_mod_cast this
  rw [le_div_iff hlen]
  have := list_le_sum h
  linarith [this]

theorem list_sum_div {α : Type} (l : List α) (f : α → ℚ) (c : ℚ) :
    (l.map (fun x => f x / c)).sum = (l.map f).sum / c := by
  induction l with
  | nil => simp
  | cons a t ih => simp [ih, add_div]

theorem list_sum_map_sub {α : Type} (l : List α) (f g : α → ℚ) :
    (l.map f).sum - (l.map g).sum = (l.map (fun x => f x - g x)).sum := by
  induction l with
  | nil => simp
  | cons a t ih =>
    simp only [List.map_cons, List.sum_cons]
    linarith [ih]

theorem list_abs_sum_le {l : List ℚ} {c : ℚ} (h : ∀ x ∈ l, |x| ≤ c) :
    |l.sum| ≤ l.length * c := by
  induction l with
  | nil => simp
  | cons a t ih =>
    simp only [List.sum_cons, List.length_cons]
    have ha := h a (List.mem_cons_self a t)
    have ht := ih (fun x hx => h x (List.mem_cons_of_mem a hx))
    have htri := abs_add a t.sum
    push_cast
    nlinarith

/-! ### Fusion engine (HCISFusionEngine in fusion_module.py)

Scores and confidences are rationals; modality result dicts are modelled by
PyDict, whose fields may hold non-numeric values so that the exception
behaviour of the numeric comparisons is observable. -/

/-- Default base weights set in the engine constructor. -/
def baseWeight : Modality → ℚ
  | Modality.video => 2/5
  | Modality.audio => 2/5
  | Modality.text => 1/5

/-- Confidence-tier multiplier chain from calculate_adaptive_weights. -/
def tierMult (conf : ℚ) : ℚ :=
  if 80 ≤ conf then 13/10
  else if 60 ≤ conf then 11/10
  else if conf < 40 then 3/5
  else if conf < 50 then 4/5
  else 1

/-- Selects the per-modality score among the three score arguments. -/
def scoreSel (vs aus txs : ℚ) : Modality → ℚ
  | Modality.video => vs
  | Modality.audio => aus
  | Modality.text => txs

/-- Selects the per-modality confidence among the three confidence arguments. -/
def confSel (vc ac tc : ℚ) : Modality → ℚ
  | Modality.video => vc
  | Modality.audio => ac
  | Modality.text => tc

/-- Modalities considered present (strictly positive score), collected in the
fixed video, audio, text order of calculate_adaptive_weights. -/
def activeOf (vs aus txs : ℚ) : List Modality :=
  [Modality.video, Modality.audio, Modality.text].filter
    (fun m => 0 < scoreSel vs aus txs m)

/-- Weight of one modality after the smart-weighting loop and before
normalisation: the tier multipliers are applied only when more than one
modality is active. -/
def rawWeightFor (active : List Modality) (confFn : Modality → ℚ) (m : Modality) : ℚ :=
  if 1 < active.length then baseWeight m * tierMult (confFn m) else baseWeight m

/-- Embedding of calculate_adaptive_weights.  Returns the normalised weight
function together with the list of active modalities.  The weight function is
only meaningful on the returned key list: the Python dict has no entry for the
other modalities, and every consumer guards reads by key membership. -/
def calcAdaptiveWeights (vs aus txs vc ac tc : ℚ) : (Modality → ℚ) × List Modality :=
  let active := activeOf vs aus txs
  if active.isEmpty then
    (fun m => if m = Modality.video then 1 else 0, [Modality.video])
  else
    let raw := rawWeightFor active (confSel vc ac tc)
    let total := (active.map raw).sum
    (fun m => raw m / total, active)

/-- Embedding of calculate_weighted_score: weights are read only for keys
present in the weights dict and only for positive scores. -/
def weightedScore (vs aus txs : ℚ) (w : Modality → ℚ) (keys : List Modality) : ℚ :=
  (if Modality.video ∈ keys ∧ 0 < vs then vs * w Modality.video else 0) +
  (if Modality.audio ∈ keys ∧ 0 < aus then aus * w Modality.audio else 0) +
  (if Modality.text ∈ keys ∧ 0 < txs then txs * w Modality.text else 0)

/-- Embedding of calculate_confidence. -/
def confWeighted (vc ac tc : ℚ) (w : Modality → ℚ) (keys : List Modality) : ℚ :=
  (if Modality.video ∈ keys ∧ 0 < vc then vc * w Modality.video else 0) +
  (if Modality.audio ∈ keys ∧ 0 < ac then ac * w Modality.audio else 0) +
  (if Modality.text ∈ keys ∧ 0 < tc then tc * w Modality.text else 0)

/-- Embedding of determine_verdict with the fixed thresholds 70 and 40. -/
def determineVerdict (s : ℚ) : Verdict :=
  if 70 ≤ s then Verdict.AUTHENTIC
  else if 40 ≤ s then Verdict.SUSPICIOUS
  else Verdict.LIKELY_FAKE

/-- The dict returned by fuse.  adaptive_weights maps absent keys to none,
mirroring a Python dict restricted to the active keys. -/
structure FusionRecord where
  success : Bool
  fusion_score : ℚ
  verdict : Verdict
  confidence : ℚ
  active_modalities : List Modality
  adaptive_weights : Modality → Option ℚ
  video_score : ℚ
  audio_score : ℚ
  text_score : ℚ
  error : Option String

/-- The weighted score that fuse feeds to determine_verdict (the value called
final_score in the source, before the 2-digit rounding of the output field). -/
def finalScoreNums (vs aus txs vc ac tc : ℚ) : ℚ :=
  let p := calcAdaptiveWeights vs aus txs vc ac tc
  weightedScore vs aus txs p.1 p.2

/-- The successful branch of fuse, given the six extracted numbers. -/
def fuseNums (vs aus txs vc ac tc : ℚ) : FusionRecord :=
  let p := calcAdaptiveWeights vs aus txs vc ac tc
  let final := weightedScore vs aus txs p.1 p.2
  { success := true
    fusion_score := pyRound final 2
    verdict := determineVerdict final
    confidence := pyRound (confWeighted vc ac tc p.1 p.2) 2
    active_modalities := p.2
    adaptive_weights := fun m => if m ∈ p.2 then some (pyRound (p.1 m) 3) else none
    video_score := pyRound vs 2
    audio_score := pyRound aus 2
    text_score := pyRound txs 2
    error := none }

/-- A value stored in a modality result dict: a number or something else. -/
inductive PyVal where
  | num (q : ℚ)
  | nonNum (tag : String)
deriving DecidableEq, Repr

/-- A modality result dict as far as fuse reads it: the success field (which
fuse never reads), the score field (video_score, audio_score or text_score)
and the confidence field. -/
structure PyDict where
  successField : Option Bool
  scoreVal : Option PyVal
  confVal : Option PyVal

/-- result.get(score_key, 0) if result else 0. -/
def getScoreVal : Option PyDict → PyVal
  | none => PyVal.num 0
  | some d => d.scoreVal.getD (PyVal.num 0)

/-- result.get(confidence_key, 0) if result else 0. -/
def getConfVal : Option PyDict → PyVal
  | none => PyVal.num 0
  | some d => d.confVal.getD (PyVal.num 0)

/-- Using a field in a numeric comparison: raises TypeError on a non-number. -/
def asNum : PyVal → Except String ℚ
  | PyVal.num q => Except.ok q
  | PyVal.nonNum tag => Except.error ("TypeError: unsupported comparison with " ++ tag)

/-- Key set of the weights dict: the active modalities, or the video-only
fallback when no modality is active. -/
def keysOf (vs aus txs : ℚ) : List Modality :=
  if (activeOf vs aus txs).isEmpty then [Modality.video] else activeOf vs aus txs

/-- The raising part of fuse: extracting the six numbers.  Score fields are
always compared against 0; a confidence field is used in a comparison (and can
raise) exactly when its modality ends up among the weight keys. -/
def extractNums (v a t : Option PyDict) : Except String (ℚ × ℚ × ℚ × ℚ × ℚ × ℚ) := do
  let vs ← asNum (getScoreVal v)
  let aus ← asNum (getScoreVal a)
  let txs ← asNum (getScoreVal t)
  let vc ← if Modality.video ∈ keysOf vs aus txs then asNum (getConfVal v) else pure 0
  let ac ← if Modality.audio ∈ keysOf vs aus txs then asNum (getConfVal a) else pure 0
  let tc ← if Modality.text ∈ keysOf vs aus txs then asNum (getConfVal t) else pure 0
  pure (vs, aus, txs, vc, ac, tc)

/-- The dict built by the except branch of fuse. -/
def mkErrorRecord (e : String) : FusionRecord :=
  { success := false
    fusion_score := 0
    verdict := Verdict.ERROR
    confidence := 0
    active_modalities := []
    adaptive_weights := fun _ => none
    video_score := 0
    audio_score := 0
    text_score := 0
    error := some e }

/-- Embedding of fuse: total, converting any raised exception into the error
record. -/
def fuse (v a t : Option PyDict) : FusionRecord :=
  match extractNums v a t with
  | Except.ok (vs, aus, txs, vc, ac, tc) => fuseNums vs aus txs vc ac tc
  | Except.error e => mkErrorRecord e

theorem tierMult_pos (c : ℚ) : 0 < tierMult c := by
  unfold tierMult
  split
  · norm_num
  split
  · norm_num
  split
  · norm_num
  split
  · norm_num
  · norm_num

theorem baseWeight_pos (m : Modality) : 0 < baseWeight m := by
  cases m <;> norm_num [baseWeight]

theorem rawWeightFor_pos (active : List Modality) (confFn : Modality → ℚ) (m : Modality) :
    0 < rawWeightFor active confFn m := by
  unfold rawWeightFor
  split
  · exact mul_pos (baseWeight_pos m) (tierMult_pos _)
  · exact baseWeight_pos m

theorem mem_activeOf (vs aus txs : ℚ) (m : Modality) :
    m ∈ activeOf vs aus txs ↔ 0 < scoreSel vs aus txs m := by
  cases m <;> simp [activeOf, scoreSel]

theorem activeOf_length_le (vs aus txs : ℚ) : (activeOf vs aus txs).length ≤ 3 := by
  have h := List.length_filter_le
    (fun m => decide (0 < scoreSel vs aus txs m))
    [Modality.video, Modality.audio, Modality.text]
  simpa [activeOf] using h

theorem keysOf_length_le (vs aus txs : ℚ) : (keysOf vs aus txs).length ≤ 3 := by
  unfold keysOf
  split
  · norm_num
  · exact activeOf_length_le vs aus txs

theorem calcAdaptiveWeights_snd (vs aus txs vc ac tc : ℚ) :
    (calcAdaptiveWeights vs aus txs vc ac tc).2 = keysOf vs aus txs := by
  simp only [calcAdaptiveWeights, keysOf]
  split
  · rfl
  · rfl

theorem calcAdaptiveWeights_fst_empty (vs aus txs vc ac tc : ℚ)
    (h : (activeOf vs aus txs).isEmpty = true) :
    (calcAdaptiveWeights vs aus txs vc ac tc).1
      = fun m => if m = Modality.video then 1 else 0 := by
  simp only [calcAdaptiveWeights]
  rw [if_pos h]

theorem calcAdaptiveWeights_fst (vs aus txs vc ac tc : ℚ)
    (h : ¬ (activeOf vs aus txs).isEmpty = true) :
    (calcAdaptiveWeights vs aus txs vc ac tc).1
      = fun m => rawWeightFor (activeOf vs aus txs) (confSel vc ac tc) m /
          ((activeOf vs aus txs).map
            (rawWeightFor (activeOf vs aus txs) (confSel vc ac tc))).sum := by
  simp only [calcAdaptiveWeights]
  rw [if_neg h]

theorem totalWeight_pos (active : List Modality) (confFn : Modality → ℚ)
    (h : active ≠ []) :
    0 < (active.map (rawWeightFor active confFn)).sum := by
  apply List.sum_pos
  · intro x hx
    rcases List.mem_map.mp hx with ⟨m, _, rfl⟩
    exact rawWeightFor_pos _ _ _
  · simpa using h

/-- The weights computed by calculate_adaptive_weights always sum to exactly 1
over the returned key list. -/
theorem weights_sum_internal (vs aus txs vc ac tc : ℚ) :
    (((calcAdaptiveWeights vs aus txs vc ac tc).2).map
      (calcAdaptiveWeights vs aus txs vc ac tc).1).sum = 1 := by
  by_cases h : (activeOf vs aus txs).isEmpty = true
  · rw [calcAdaptiveWeights_snd, calcAdaptiveWeights_fst_empty vs aus txs vc ac tc h,
      keysOf, if_pos h]
    simp
  · rw [calcAdaptiveWeights_snd, calcAdaptiveWeights_fst vs aus txs vc ac tc h,
      keysOf, if_neg h]
    rw [list_sum_div]
    apply div_self
    apply ne_of_gt
    apply totalWeight_pos
    intro hnil
    rw [hnil] at h
    simp at h

theorem exceptBind_ok {α β : Type} (x : α) (f : α → Except String β) :
    (Except.ok x >>= f) = f x := rfl

theorem exceptPure_eq {α : Type} (x : α) : (pure x : Except String α) = Except.ok x := rfl

/-- A modality result dict whose score and confidence fields are numbers. -/
def mkNumDict (s : Option Bool) (score conf : ℚ) : PyDict :=
  { successField := s, scoreVal := some (PyVal.num score), confVal := some (PyVal.num conf) }

/-- fuse applied to three fully numeric result dicts. -/
def fuseND (sv sa st : Option Bool) (vs aus txs vc ac tc : ℚ) : FusionRecord :=
  fuse (some (mkNumDict sv vs vc)) (some (mkNumDict sa aus ac)) (some (mkNumDict st txs tc))

theorem extractNums_num (sv sa st : Option Bool) (vs aus txs vc ac tc : ℚ) :
    extractNums (some (mkNumDict sv vs vc)) (some (mkNumDict sa aus ac))
        (some (mkNumDict st txs tc))
      = Except.ok (vs, aus, txs,
          (if Modality.video ∈ keysOf vs aus txs then vc else 0),
          (if Modality.audio ∈ keysOf vs aus txs then ac else 0),
          (if Modality.text ∈ keysOf vs aus txs then tc else 0)) := by
  by_cases h1 : Modality.video ∈ keysOf vs aus txs <;>
  by_cases h2 : Modality.audio ∈ keysOf vs aus txs <;>
  by_cases h3 : Modality.text ∈ keysOf vs aus txs <;>
  simp [extractNums, getScoreVal, getConfVal, mkNumDict, asNum,
    exceptBind_ok, exceptPure_eq, h1, h2, h3]

theorem fuseND_eq (sv sa st : Option Bool) (vs aus txs vc ac tc : ℚ) :
    fuseND sv sa st vs aus txs vc ac tc
      = fuseNums vs aus txs
          (if Modality.video ∈ keysOf vs aus txs then vc else 0)
          (if Modality.audio ∈ keysOf vs aus txs then ac else 0)
          (if Modality.text ∈ keysOf vs aus txs then tc else 0) := by
  unfold fuseND fuse
  rw [extractNums_num]

/-! ### Claim theorems for the fusion engine -/

/-- Claim C1 (amended): the weights used to compute fusion_score sum to
exactly 1 over the active modalities; the weights mapping emitted in the
returned record is rounded to 3 decimal places, so its sum over the active
modalities is only guaranteed to lie within 3/2000 of 1. -/
theorem fusion_weights_sum_amended (vs aus txs vc ac tc : ℚ) :
    (((calcAdaptiveWeights vs aus txs vc ac tc).2).map
        (calcAdaptiveWeights vs aus txs vc ac tc).1).sum = 1 ∧
    |(((fuseNums vs aus txs vc ac tc).active_modalities).map
        (fun m => ((fuseNums vs aus txs vc ac tc).adaptive_weights m).getD 0)).sum - 1|
      ≤ 3/2000 := by
  refine ⟨weights_sum_internal vs aus txs vc ac tc, ?_⟩
  have hact : (fuseNums vs aus txs vc ac tc).active_modalities
      = (calcAdaptiveWeights vs aus txs vc ac tc).2 := rfl
  have hw : ∀ m ∈ (calcAdaptiveWeights vs aus txs vc ac tc).2,
      ((fuseNums vs aus txs vc ac tc).adaptive_weights m).getD 0
        = pyRound ((calcAdaptiveWeights vs aus txs vc ac tc).1 m) 3 := by
    intro m hm
    show (Option.getD (if m ∈ (calcAdaptiveWeights vs aus txs vc ac tc).2
        then some (pyRound ((calcAdaptiveWeights vs aus txs vc ac tc).1 m) 3)
        else none) 0) = _
    rw [if_pos hm]
    rfl
  rw [hact, List.map_congr_left hw]
  have hsum := weights_sum_internal vs aus txs vc ac tc
  have hdiff := list_sum_map_sub (calcAdaptiveWeights vs aus txs vc ac tc).2
    (fun m => pyRound ((calcAdaptiveWeights vs aus txs vc ac tc).1 m) 3)
    (calcAdaptiveWeights vs aus txs vc ac tc).1
  have hlen : ((calcAdaptiveWeights vs aus txs vc ac tc).2).length ≤ 3 := by
    rw [calcAdaptiveWeights_snd]
    exact keysOf_length_le vs aus txs
  have habs : ∀ x ∈ ((calcAdaptiveWeights vs aus txs vc ac tc).2).map
      (fun m => pyRound ((calcAdaptiveWeights vs aus txs vc ac tc).1 m) 3
        - (calcAdaptiveWeights vs aus txs vc ac tc).1 m), |x| ≤ 1/2000 := by
    intro x hx
    rcases List.mem_map.mp hx with ⟨m, _, rfl⟩
    have := abs_pyRound_sub ((calcAdaptiveWeights vs aus txs vc ac tc).1 m) 3
    calc |pyRound ((calcAdaptiveWeights vs aus txs vc ac tc).1 m) 3
        - (calcAdaptiveWeights vs aus txs vc ac tc).1 m| ≤ 1 / (2 * 10 ^ 3) := this
      _ = 1/2000 := by norm_num
  have hbound := list_abs_sum_le habs
  rw [List.length_map] at hbound
  have hlen2 : (((calcAdaptiveWeights vs aus txs vc ac tc).2).length : ℚ) ≤ 3 := by
    exact_mod_cast hlen
  calc |(((calcAdaptiveWeights vs aus txs vc ac tc).2).map
        (fun m => pyRound ((calcAdaptiveWeights vs aus txs vc ac tc).1 m) 3)).sum - 1|
      = |(((calcAdaptiveWeights vs aus txs vc ac tc).2).map
          (fun m => pyRound ((calcAdaptiveWeights vs aus txs vc ac tc).1 m) 3)).sum
          - (((calcAdaptiveWeights vs aus txs vc ac tc).2).map
            (calcAdaptiveWeights vs aus txs vc ac tc).1).sum| := by rw [hsum]
    _ = |(((calcAdaptiveWeights vs aus txs vc ac tc).2).map
          (fun m => pyRound ((calcAdaptiveWeights vs aus txs vc ac tc).1 m) 3
            - (calcAdaptiveWeights vs aus txs vc ac tc).1 m)).sum| := by rw [hdiff]
    _ ≤ (((calcAdaptiveWeights vs aus txs vc ac tc).2).length : ℚ) * (1/2000) := hbound
    _ ≤ 3 * (1/2000) := by
        apply mul_le_mul_of_nonneg_right hlen2
        norm_num
    _ = 3/2000 := by norm_num

/-- Claim C1 counterexample: with scores (80, 50, 50) and confidences
(90, 65, 55) all three modalities are active with internal weights 13/29,
11/29, 5/29; the emitted rounded weights are 0.448, 0.379 and 0.172, whose sum
0.999 misses 1.0 by far more than the 1e-6 tolerance. -/
theorem fusion_weights_sum_rounded_counterexample :
    (((fuseND none none none 80 50 50 90 65 55).active_modalities).map
        (fun m => ((fuseND none none none 80 50 50 90 65 55).adaptive_weights m).getD 0)).sum
      = 999/1000 ∧
    ¬ (|(999/1000 : ℚ) - 1| ≤ 1/1000000) := by
  constructor
  · rw [fuseND_eq]
    norm_num [fuseNums, calcAdaptiveWeights, activeOf, scoreSel, confSel, baseWeight,
      tierMult, rawWeightFor, keysOf, pyRound, roundHalfEven]
  · intro h
    rw [abs_le] at h
    linarith [h.1]

/-- The normalised weight of one modality, written as the specification
describes it: base weight times the tier multiplier for the confidence of that
modality, divided by the same quantity summed over the active modalities. -/
def specC2Weight (active : List Modality) (confFn : Modality → ℚ) (m : Modality) : ℚ :=
  baseWeight m * tierMult (confFn m)
    / ((active.map (fun x => baseWeight x * tierMult (confFn x))).sum)

/-- Claim C2: for every combination of active modalities, the final weight of
an active modality equals its base weight times the confidence tier multiplier,
renormalised over the active modalities.  (When exactly one modality is active
the code skips the multipliers, but renormalisation makes both sides 1.) -/
theorem adaptive_weights_tier_formula (vs aus txs vc ac tc : ℚ) (m : Modality)
    (hm : m ∈ activeOf vs aus txs) :
    (calcAdaptiveWeights vs aus txs vc ac tc).1 m
      = specC2Weight (activeOf vs aus txs) (confSel vc ac tc) m := by
  have hne : activeOf vs aus txs ≠ [] := List.ne_nil_of_mem hm
  have hnee : ¬ (activeOf vs aus txs).isEmpty = true := by
    simpa [List.isEmpty_iff] using hne
  rw [calcAdaptiveWeights_fst vs aus txs vc ac tc hnee]
  by_cases hlen : 1 < (activeOf vs aus txs).length
  · have hraw : rawWeightFor (activeOf vs aus txs) (confSel vc ac tc)
        = fun x => baseWeight x * tierMult (confSel vc ac tc x) := by
      funext x
      unfold rawWeightFor
      rw [if_pos hlen]
    rw [hraw]
    rfl
  · have hlen1 : (activeOf vs aus txs).length = 1 := by
      have hpos : 0 < (activeOf vs aus txs).length := List.length_pos.mpr hne
      omega
    obtain ⟨x, hx⟩ := List.length_eq_one.mp hlen1
    rw [hx] at hm
    have hmx : m = x := by simpa using hm
    subst hmx
    rw [hx]
    unfold specC2Weight
    simp only [rawWeightFor, List.length_singleton, List.map_singleton,
      List.sum_singleton]
    rw [if_neg (by norm_num)]
    rw [div_self (ne_of_gt (baseWeight_pos m)),
      div_self (ne_of_gt (mul_pos (baseWeight_pos m) (tierMult_pos _)))]

/-- Claim C2 witness: video and audio active with confidences 90 and 45, the
video weight is (0.4·1.3)/(0.4·1.3 + 0.4·0.8) = 13/21. -/
theorem adaptive_weights_tier_formula_witness :
    Modality.video ∈ activeOf 80 58 0 ∧
    (calcAdaptiveWeights 80 58 0 90 45 0).1 Modality.video
      = specC2Weight (activeOf 80 58 0) (confSel 90 45 0) Modality.video ∧
    (calcAdaptiveWeights 80 58 0 90 45 0).1 Modality.video = 13/21 := by
  have hmem : Modality.video ∈ activeOf 80 58 0 := by
    norm_num [activeOf, scoreSel]
  refine ⟨hmem, adaptive_weights_tier_formula 80 58 0 90 45 0 Modality.video hmem, ?_⟩
  norm_num [calcAdaptiveWeights, activeOf, scoreSel, confSel, baseWeight, tierMult,
    rawWeightFor]

/-- Claim C3: on the successful path the verdict is exactly
determine_verdict applied to the fused weighted score, a pure function of that
score with the fixed thresholds 70 and 40; the four boundary cases evaluate as
the specification states. -/
theorem verdict_pure_function_of_score :
    (∀ vs aus txs vc ac tc : ℚ,
      (fuseNums vs aus txs vc ac tc).verdict
        = determineVerdict (finalScoreNums vs aus txs vc ac tc)) ∧
    (∀ s : ℚ, (determineVerdict s = Verdict.AUTHENTIC ↔ 70 ≤ s) ∧
      (determineVerdict s = Verdict.SUSPICIOUS ↔ 40 ≤ s ∧ s < 70) ∧
      (determineVerdict s = Verdict.LIKELY_FAKE ↔ s < 40)) ∧
    (fuseNums 70 0 0 50 0 0).verdict = Verdict.AUTHENTIC ∧
    (fuseNums (69999/1000) 0 0 50 0 0).verdict = Verdict.SUSPICIOUS ∧
    (fuseNums 40 0 0 50 0 0).verdict = Verdict.SUSPICIOUS ∧
    (fuseNums (39999/1000) 0 0 50 0 0).verdict = Verdict.LIKELY_FAKE := by
  refine ⟨fun vs aus txs vc ac tc => rfl, fun s => ?_, ?_, ?_, ?_, ?_⟩
  · unfold determineVerdict
    split_ifs with h1 h2
    · refine ⟨by simp [h1], ?_, ?_⟩
      · simp only [reduceCtorEq, false_iff]
        intro hc
        linarith [hc.2]
      · simp only [reduceCtorEq, false_iff]
        intro hc
        linarith
    · refine ⟨?_, ?_, ?_⟩
      · simp only [reduceCtorEq, false_iff]
        intro hc
        exact h1 hc
      · simp only [true_iff]
        exact ⟨h2, lt_of_not_le h1⟩
      · simp only [reduceCtorEq, false_iff]
        intro hc
        linarith
    · refine ⟨?_, ?_, ?_⟩
      · simp only [reduceCtorEq, false_iff]
        intro hc
        exact h1 hc
      · simp only [reduceCtorEq, false_iff]
        intro hc
        exact h2 hc.1
      · simp only [true_iff]
        exact lt_of_not_le h2
  · norm_num [fuseNums, calcAdaptiveWeights, activeOf, scoreSel, confSel, baseWeight,
      tierMult, rawWeightFor, weightedScore, determineVerdict]
  · norm_num [fuseNums, calcAdaptiveWeights, activeOf, scoreSel, confSel, baseWeight,
      tierMult, rawWeightFor, weightedScore, determineVerdict]
  · norm_num [fuseNums, calcAdaptiveWeights, activeOf, scoreSel, confSel, baseWeight,
      tierMult, rawWeightFor, weightedScore, determineVerdict]
  · norm_num [fuseNums, calcAdaptiveWeights, activeOf, scoreSel, confSel, baseWeight,
      tierMult, rawWeightFor, weightedScore, determineVerdict]

/-- Claim C5: fusing three absent modality results yields the video-only
fallback weights, active_modalities = [video], fusion_score 0 and the
LIKELY_FAKE verdict, on the successful path. -/
theorem fuse_all_absent_result :
    (fuse none none none).success = true ∧
    (fuse none none none).fusion_score = 0 ∧
    (fuse none none none).verdict = Verdict.LIKELY_FAKE ∧
    (fuse none none none).active_modalities = [Modality.video] ∧
    (fuse none none none).adaptive_weights Modality.video = some 1 ∧
    (fuse none none none).adaptive_weights Modality.audio = none ∧
    (fuse none none none).adaptive_weights Modality.text = none := by
  refine ⟨?_, ?_, ?_, ?_, ?_, ?_, ?_⟩ <;>
  (norm_num [fuse, extractNums, asNum, getScoreVal, getConfVal, keysOf, activeOf,
    scoreSel, confSel, fuseNums, calcAdaptiveWeights, weightedScore, confWeighted,
    determineVerdict, baseWeight, tierMult, rawWeightFor, pyRound, roundHalfEven,
    bind, Except.bind, pure, Except.pure] ;
   try (intro h; exact absurd h (by decide)))

/-- Claim C6: fuse is total; every extraction error is converted into the
error record with success false, fusion_score 0, verdict ERROR and an error
message, and otherwise fuse returns the successful record. -/
theorem fuse_total_error_conversion (v a t : Option PyDict) :
    (∃ vs aus txs vc ac tc : ℚ,
        extractNums v a t = Except.ok (vs, aus, txs, vc, ac, tc) ∧
        fuse v a t = fuseNums vs aus txs vc ac tc ∧
        (fuse v a t).success = true) ∨
    (∃ e : String,
        extractNums v a t = Except.error e ∧
        fuse v a t = mkErrorRecord e ∧
        (fuse v a t).success = false ∧
        (fuse v a t).fusion_score = 0 ∧
        (fuse v a t).verdict = Verdict.ERROR ∧
        (fuse v a t).error = some e) := by
  rcases hx : extractNums v a t with e | q
  · right
    have hf : fuse v a t = mkErrorRecord e := by
      simp only [fuse, hx]
    refine ⟨e, rfl, hf, ?_, ?_, ?_, ?_⟩ <;> rw [hf] <;> rfl
  · left
    obtain ⟨vs, aus, txs, vc, ac, tc⟩ := q
    have hf : fuse v a t = fuseNums vs aus txs vc ac tc := by
      simp only [fuse, hx]
    exact ⟨vs, aus, txs, vc, ac, tc, rfl, hf, by rw [hf]; rfl⟩

/-- Claim C10 (amended): for fully numeric result dicts, membership in the
active set ignores the success field and is decided by score > 0 alone,
except that when no modality has a positive score the engine falls back to
active_modalities = [video] with weight 1.  An active modality always receives
a strictly positive internal weight, for every confidence assignment. -/
theorem active_set_score_only_amended (sv sa st : Option Bool) (vs aus txs vc ac tc : ℚ) :
    (fuseND sv sa st vs aus txs vc ac tc).active_modalities = keysOf vs aus txs ∧
    (∀ m, m ∈ activeOf vs aus txs →
        m ∈ (fuseND sv sa st vs aus txs vc ac tc).active_modalities ∧
        ((fuseND sv sa st vs aus txs vc ac tc).adaptive_weights m).isSome = true ∧
        (∀ vc2 ac2 tc2 : ℚ, 0 < (calcAdaptiveWeights vs aus txs vc2 ac2 tc2).1 m)) ∧
    (∀ m, m ∉ activeOf vs aus txs → activeOf vs aus txs ≠ [] →
        m ∉ (fuseND sv sa st vs aus txs vc ac tc).active_modalities ∧
        (fuseND sv sa st vs aus txs vc ac tc).adaptive_weights m = none) := by
  rw [fuseND_eq]
  have hact : (fuseNums vs aus txs
      (if Modality.video ∈ keysOf vs aus txs then vc else 0)
      (if Modality.audio ∈ keysOf vs aus txs then ac else 0)
      (if Modality.text ∈ keysOf vs aus txs then tc else 0)).active_modalities
      = keysOf vs aus txs := by
    show (calcAdaptiveWeights vs aus txs _ _ _).2 = keysOf vs aus txs
    exact calcAdaptiveWeights_snd vs aus txs _ _ _
  refine ⟨hact, ?_, ?_⟩
  · intro m hm
    have hne : activeOf vs aus txs ≠ [] := List.ne_nil_of_mem hm
    have hnee : ¬ (activeOf vs aus txs).isEmpty = true := by
      simpa [List.isEmpty_iff] using hne
    have hkeys : keysOf vs aus txs = activeOf vs aus txs := by
      unfold keysOf
      rw [if_neg hnee]
    have hmk : m ∈ keysOf vs aus txs := by rw [hkeys]; exact hm
    refine ⟨by rw [hact]; exact hmk, ?_, ?_⟩
    · show (Option.isSome (if m ∈ (calcAdaptiveWeights vs aus txs _ _ _).2
        then some (pyRound ((calcAdaptiveWeights vs aus txs _ _ _).1 m) 3)
        else none)) = true
      rw [calcAdaptiveWeights_snd, if_pos hmk]
      rfl
    · intro vc2 ac2 tc2
      rw [calcAdaptiveWeights_fst vs aus txs vc2 ac2 tc2 hnee]
      exact div_pos (rawWeightFor_pos _ _ _) (totalWeight_pos _ _ hne)
  · intro m hm hne
    have hnee : ¬ (activeOf vs aus txs).isEmpty = true := by
      simpa [List.isEmpty_iff] using hne
    have hkeys : keysOf vs aus txs = activeOf vs aus txs := by
      unfold keysOf
      rw [if_neg hnee]
    have hmk : m ∉ keysOf vs aus txs := by rw [hkeys]; exact hm
    refine ⟨by rw [hact]; exact hmk, ?_⟩
    show (if m ∈ (calcAdaptiveWeights vs aus txs _ _ _).2
        then some (pyRound ((calcAdaptiveWeights vs aus txs _ _ _).1 m) 3)
        else none) = none
    rw [calcAdaptiveWeights_snd, if_neg hmk]

/-- Claim C10 witness: video has success false but score 50 and is active with
positive weight; text has success true but score 0 and is excluded. -/
theorem active_set_score_only_amended_witness :
    Modality.video ∈ activeOf 50 0 0 ∧
    Modality.video ∈ (fuseND (some false) none (some true) 50 0 0 80 0 70).active_modalities ∧
    ((fuseND (some false) none (some true) 50 0 0 80 0 70).adaptive_weights
      Modality.video).isSome = true ∧
    0 < (calcAdaptiveWeights 50 0 0 80 0 70).1 Modality.video ∧
    Modality.text ∉ (fuseND (some false) none (some true) 50 0 0 80 0 70).active_modalities ∧
    (fuseND (some false) none (some true) 50 0 0 80 0 70).adaptive_weights Modality.text
      = none := by
  have hmem : Modality.video ∈ activeOf 50 0 0 := by
    norm_num [activeOf, scoreSel]
  have hnotmem : Modality.text ∉ activeOf 50 0 0 := by
    norm_num [activeOf, scoreSel]
    try decide
  have hne : activeOf 50 0 0 ≠ [] := List.ne_nil_of_mem hmem
  have h := active_set_score_only_amended (some false) none (some true) 50 0 0 80 0 70
  obtain ⟨h1, h2, h3⟩ := h
  have hv := h2 Modality.video hmem
  have ht := h3 Modality.text hnotmem hne
  exact ⟨hmem, hv.1, hv.2.1, hv.2.2 80 0 70, ht.1, ht.2⟩

/-- Claim C10 counterexample: a video result with success true and score 0,
fused alone, is nevertheless reported in active_modalities with weight 1.0 by
the no-active-modality fallback, so a zero-score modality is not always
excluded from the active set. -/
theorem active_set_fallback_counterexample :
    (fuse (some (mkNumDict (some true) 0 50)) none none).active_modalities
      = [Modality.video] ∧
    (fuse (some (mkNumDict (some true) 0 50)) none none).adaptive_weights Modality.video
      = some 1 := by
  constructor <;>
  (norm_num [fuse, extractNums, asNum, getScoreVal, getConfVal, keysOf, activeOf,
    scoreSel, confSel, fuseNums, calcAdaptiveWeights, weightedScore, confWeighted,
    determineVerdict, baseWeight, tierMult, rawWeightFor, pyRound, roundHalfEven,
    mkNumDict, bind, Except.bind, pure, Except.pure] ;
   try (intro h; exact absurd h (by decide)))

/-! ### Analyzer result records

All three analyzers return a dict with success, a score, a confidence and an
optional error; scores and confidences are rounded to 2 decimal places. -/

/-- The dict returned by one analyzer. -/
structure ModalityRecord where
  success : Bool
  score : ℚ
  confidence : ℚ
  error : Option String

/-! ### Video analyzer (video_module.py and video_helpers.py)

Per-frame raster statistics produced by the vision library are oracle
inputs: the Laplacian variance, mean and standard deviation of the grayscale
pixels, the Canny edge-pixel fraction, and the face detections. -/

/-- Oracle statistics of one processed frame. -/
structure FrameStats where
  lapVar : ℚ
  pixelMean : ℚ
  pixelStd : ℚ
  edgeFrac : ℚ
  faceCount : ℕ
  largestFaceArea : ℚ

/-- Embedding of calculate_frame_quality (overall_quality). -/
def frameQuality (fs : FrameStats) : ℚ :=
  min (fs.lapVar / 500) 1 * (1/2)
    + (1 - |fs.pixelMean / 255 - 1/2| * 2) * (3/10)
    + min (fs.pixelStd / 128) 1 * (1/5)

/-- Embedding of analyze_face_consistency over the per-frame face counts and
the largest-face areas of the frames with at least one face. -/
def faceConsistency (counts : List ℕ) (sizes : List ℚ) : ℚ :=
  if counts.isEmpty then 0
  else
    (((counts.filter (fun c => 0 < c)).length : ℚ) / counts.length) * (7/10)
      + (if sizes.isEmpty then 0
         else max 0 (1 - (listVar sizes / (listMean sizes + 1/1000000)) / 1000)) * (3/10)

/-- Embedding of detect_artifacts over the per-frame qualities and edge
fractions. -/
def detectVideoArtifacts (qualities edges : List ℚ) : ℚ :=
  min ((if 1/20 < listVar qualities then 3/10 else 0)
    + (if 19/20 < listMean qualities ∨ listMean qualities < 3/10 then 1/5 else 0)
    + (if listMean edges < 1/20 ∨ 3/10 < listMean edges then 1/5 else 0)) 1

/-- Embedding of analyze_audio_visual_sync: the clipped Pearson correlation of
the mouth-movement and audio-energy series when both are long enough,
otherwise (or on failure) the neutral 0.5. -/
def syncScoreOf : Option ℚ → ℚ
  | none => 1/2
  | some c => max 0 c

/-- Oracle inputs of one analyze_video call: the processed frames with their
statistics, and the sync correlation when available. -/
structure VideoFeatures where
  frames : List FrameStats
  sync : Option ℚ

/-- What the vision library guarantees about the oracle inputs: variances and
standard deviations are nonnegative, pixel means lie in [0, 255], face areas
are nonnegative, and a Pearson correlation is at most 1. -/
def VideoFeatures.Valid (vf : VideoFeatures) : Prop :=
  (∀ f ∈ vf.frames, 0 ≤ f.lapVar ∧ 0 ≤ f.pixelMean ∧ f.pixelMean ≤ 255
    ∧ 0 ≤ f.pixelStd ∧ 0 ≤ f.largestFaceArea) ∧
  (∀ c : ℚ, vf.sync = some c → c ≤ 1)

/-- Embedding of analyze_video. -/
def analyzeVideoRecord (vf : VideoFeatures) : ModalityRecord :=
  if vf.frames.isEmpty then
    { success := false, score := 0, confidence := 0,
      error := some ("Could not extract frames from video") }
  else
    { success := true
      score := pyRound
        ((faceConsistency (vf.frames.map FrameStats.faceCount)
            ((vf.frames.filter (fun f => 0 < f.faceCount)).map FrameStats.largestFaceArea)
              * (3/10)
          + listMean (vf.frames.map frameQuality) * (1/4)
          + (1 - detectVideoArtifacts (vf.frames.map frameQuality)
              (vf.frames.map FrameStats.edgeFrac)) * (1/4)
          + syncScoreOf vf.sync * (3/20)) * 100) 2
      confidence := pyRound (min ((vf.frames.length : ℚ) / 50 * 100) 100) 2
      error := none }

/-! ### Frame extraction (extract_video_frames in video_helpers.py) -/

/-- Indices of the frames kept by extract_video_frames for a video with
totalFrames frames: the read loop runs while frame_count < max_frames and a
frame could be read, and keeps every step-th read frame, with
step = max(1, totalFrames // maxFrames). -/
def extractFrameIndices (totalFrames maxFrames : ℕ) : List ℕ :=
  (List.range (min maxFrames totalFrames)).filter
    (fun i => i % (max 1 (totalFrames / maxFrames)) = 0)

/-- The sampling the specification (and the comment in the source) describes:
up to maxFrames frames at even stride across the whole frame count. -/
def specEvenSample (totalFrames maxFrames : ℕ) : List ℕ :=
  ((List.range totalFrames).filter
    (fun i => i % (max 1 (totalFrames / maxFrames)) = 0)).take maxFrames

/-! ### Audio analyzer (audio_module.py and audio_helpers.py) -/

/-- Oracle statistics of the cepstral fingerprint: variance of the
coefficient standard deviations and mean coefficient range. -/
structure MfccStats where
  variance : ℚ
  rangeAvg : ℚ

/-- Oracle spectral descriptors: centroid, zero-crossing rate, bandwidth. -/
structure SpectralStats where
  centroid : ℚ
  zcr : ℚ
  bandwidth : ℚ

/-- Oracle quality metrics: dynamic range, voiced-frame ratio, kurtosis. -/
structure QualityStats where
  dynRange : ℚ
  voicedFrac : ℚ
  kurt : ℚ

/-- Oracle quantities compared by detect_audio_artifacts. -/
structure ArtifactStats where
  stdFreqVar : ℚ
  suddenChanges : ℕ
  onsetCount : ℕ
  silenceFrac : ℚ
  clipFrac : ℚ

/-- Embedding of analyze_voice_naturalness on extracted MFCC statistics. -/
def voiceNaturalness (m : MfccStats) : ℚ :=
  (if 1/2 < m.variance ∧ m.variance < 2 then 1/2
   else max 0 (1/2 - |m.variance - 5/4| / 2))
  + (if 20 < m.rangeAvg ∧ m.rangeAvg < 80 then 1/2
     else max 0 (1/2 - |m.rangeAvg - 50| / 100))

/-- Embedding of analyze_spectral_authenticity on extracted descriptors. -/
def spectralAuthenticity (s : SpectralStats) : ℚ :=
  (if 1000 < s.centroid ∧ s.centroid < 4000 then 2/5
   else max 0 (2/5 - |s.centroid - 2500| / 5000))
  + (if 1/20 < s.zcr ∧ s.zcr < 3/20 then 3/10
     else max 0 (3/10 - |s.zcr - 1/10| / (1/5)))
  + (if 500 < s.bandwidth ∧ s.bandwidth < 3000 then 3/10
     else max 0 (3/10 - |s.bandwidth - 1750| / 5000))

/-- Embedding of the overall_quality formula of calculate_audio_quality. -/
def audioQualityScore (q : QualityStats) : ℚ :=
  min q.dynRange 1 * (3/10) + q.voicedFrac * (2/5) + min (|q.kurt| / 10) 1 * (3/10)

/-- Embedding of detect_audio_artifacts. -/
def detectAudioArtifacts (a : ArtifactStats) : ℚ :=
  min ((if a.stdFreqVar < 1/10 then 1/5 else 0)
    + (if (a.onsetCount : ℚ) * (1/10) < (a.suddenChanges : ℚ) then 3/10 else 0)
    + (if 3/10 < a.silenceFrac ∨ a.silenceFrac < 1/100 then 1/5 else 0)
    + (if 1/100 < a.clipFrac then 3/10 else 0)) 1

/-- voice_naturalness with the 0.5 fallback when MFCC extraction failed. -/
def vnOf : Option MfccStats → ℚ
  | none => 1/2
  | some m => voiceNaturalness m

/-- spectral_authenticity with the 0.5 fallback. -/
def saOf : Option SpectralStats → ℚ
  | none => 1/2
  | some s => spectralAuthenticity s

/-- audio_quality with the 0.5 fallback. -/
def aqOf : Option QualityStats → ℚ
  | none => 1/2
  | some q => audioQualityScore q

/-- artifact score with the 0.5 fallback. -/
def artOf : Option ArtifactStats → ℚ
  | none => 1/2
  | some a => detectAudioArtifacts a

/-- Oracle inputs of one analyze_audio call on successfully loaded audio. -/
structure AudioFeatures where
  mfcc : Option MfccStats
  spectral : Option SpectralStats
  quality : Option QualityStats
  artifacts : Option ArtifactStats
  sampleCount : ℕ

/-- What the audio library guarantees: the dynamic range (a std over a
positive mean) and the voiced-frame ratio (a count over a count) are
nonnegative.  The voiced-frame ratio is not guaranteed to be at most 1, which
is why analyze_audio clamps every component at its use site. -/
def AudioFeatures.Valid (af : AudioFeatures) : Prop :=
  ∀ q : QualityStats, af.quality = some q → 0 ≤ q.dynRange ∧ 0 ≤ q.voicedFrac

/-- Embedding of the scoring part of analyze_audio. -/
def analyzeAudioRecord (af : AudioFeatures) : ModalityRecord :=
  { success := true
    score := pyRound (min ((min (vnOf af.mfcc) 1 * (2/5)
      + min (saOf af.spectral) 1 * (3/10)
      + min (aqOf af.quality) 1 * (1/5)
      + min (1 - artOf af.artifacts) 1 * (1/10)) * 100) 100) 2
    confidence := pyRound (min (((af.sampleCount : ℚ) / 22050) / 10 * 100) 100) 2
    error := none }

/-- Embedding of analyze_audio including the load-failure branch. -/
def analyzeAudioTop : Option AudioFeatures → ModalityRecord
  | none => ⟨false, 0, 0, some ("Could not load audio file")⟩
  | some af => analyzeAudioRecord af

/-! ### Text analyzer (text_module.py and text_helpers.py)

The sentence-embedding model is an oracle: the input carries the per-claim
best cosine similarity against the fact corpus and the remaining feature
values computed by the heuristics. -/

/-- Oracle inputs of one analyze_text call: per-claim best similarities (one
entry per extracted claim) and the heuristic feature values. -/
structure TextFeatures where
  sims : List ℚ
  factualDensity : ℚ
  sentenceQuality : ℚ
  naturalness : ℚ
  halluc : ℚ
  contra : ℚ

/-- What the helpers guarantee: cosine similarities lie in [-1, 1] (0.5 on a
per-claim fallback) and every heuristic feature lies in [0, 1]. -/
def TextFeatures.Valid (tf : TextFeatures) : Prop :=
  (∀ s ∈ tf.sims, -1 ≤ s ∧ s ≤ 1) ∧
  0 ≤ tf.factualDensity ∧ tf.factualDensity ≤ 1 ∧
  0 ≤ tf.sentenceQuality ∧ tf.sentenceQuality ≤ 1 ∧
  0 ≤ tf.naturalness ∧ tf.naturalness ≤ 1 ∧
  0 ≤ tf.halluc ∧ tf.halluc ≤ 1 ∧
  0 ≤ tf.contra ∧ tf.contra ≤ 1

/-- Embedding of analyze_factual_accuracy given the per-claim best
similarities. -/
def analyzeFactualAccuracy (sims : List ℚ) : ℚ :=
  if sims.isEmpty then 1/2
  else
    if 85/100 < listMean sims then listMean sims * (95/100)
    else if 70/100 < listMean sims then listMean sims * (85/100)
    else if 50/100 < listMean sims then listMean sims * (70/100)
    else if 30/100 < listMean sims then listMean sims * (1/2)
    else listMean sims * (3/10)

/-- The factual accuracy after the contradiction adjustment applied in
analyze_text: factual_accuracy * (1 - contradiction_penalty * 0.5). -/
def adjustedFactualAccuracy (sims : List ℚ) (contra : ℚ) : ℚ :=
  analyzeFactualAccuracy sims * (1 - contra * (1/2))

/-- Embedding of the reliability_score formula of analyze_text, including the
factual-density bonus. -/
def textReliability (tf : TextFeatures) : ℚ :=
  if 3/5 < tf.factualDensity then
    min 1 ((tf.factualDensity * (1/4)
      + adjustedFactualAccuracy tf.sims tf.contra * (7/20)
      + tf.sentenceQuality * (3/20) + tf.naturalness * (1/5)
      + (1 - tf.halluc) * (1/20))
      + min (3/20) ((tf.factualDensity - 3/5) * (3/10)))
  else
    tf.factualDensity * (1/4)
      + adjustedFactualAccuracy tf.sims tf.contra * (7/20)
      + tf.sentenceQuality * (3/20) + tf.naturalness * (1/5)
      + (1 - tf.halluc) * (1/20)

/-- text_score before the final rounding. -/
def textScoreOf (tf : TextFeatures) : ℚ := min (textReliability tf * 100) 100

/-- The confidence computed by analyze_text before the final rounding: the
claim-count base, then the density boost capped at 90, then the
sentence-quality boost capped at 95. -/
def textConfidenceOf (tf : TextFeatures) : ℚ :=
  if 4/5 < tf.sentenceQuality then
    min 95 ((if 3/5 < tf.factualDensity
      then min 90 (min ((tf.sims.length : ℚ) / 5 * 100) 100 + 15)
      else min ((tf.sims.length : ℚ) / 5 * 100) 100) + 10)
  else
    if 3/5 < tf.factualDensity
      then min 90 (min ((tf.sims.length : ℚ) / 5 * 100) 100 + 15)
      else min ((tf.sims.length : ℚ) / 5 * 100) 100

/-- Embedding of analyze_text. -/
def analyzeTextRecord (tf : TextFeatures) : ModalityRecord :=
  if tf.sims.isEmpty then
    { success := false, score := 0, confidence := 0,
      error := some ("No claims could be extracted from text") }
  else
    { success := true
      score := pyRound (textScoreOf tf) 2
      confidence := pyRound (textConfidenceOf tf) 2
      error := none }

/-! ### Range lemmas for the analyzers -/

theorem ifBand_bounds (c : Prop) [Decidable c] (w e : ℚ) (hw : 0 ≤ w) (he : 0 ≤ e) :
    0 ≤ (if c then w else max 0 (w - e)) ∧ (if c then w else max 0 (w - e)) ≤ w := by
  split_ifs
  · exact ⟨hw, le_refl w⟩
  · exact ⟨le_max_left 0 _, max_le hw (by linarith)⟩

theorem pyRound_le_hundred (x : ℚ) (n : ℕ) (h : x ≤ 100) : pyRound x n ≤ 100 := by
  have h2 : x ≤ ((100 : ℤ) : ℚ) := by exact_mod_cast h
  have := pyRound_le_of_le x n 100 h2
  exact_mod_cast this

theorem frameQuality_bounds (fs : FrameStats) (h0 : 0 ≤ fs.lapVar)
    (h1 : 0 ≤ fs.pixelMean) (h2 : fs.pixelMean ≤ 255) (h3 : 0 ≤ fs.pixelStd) :
    0 ≤ frameQuality fs ∧ frameQuality fs ≤ 1 := by
  unfold frameQuality
  have s1a : (0:ℚ) ≤ min (fs.lapVar / 500) 1 := le_min (by positivity) (by norm_num)
  have s1b : min (fs.lapVar / 500) 1 ≤ 1 := min_le_right _ _
  have hb1 : (0:ℚ) ≤ fs.pixelMean / 255 := by positivity
  have hb2 : fs.pixelMean / 255 ≤ 1 := by
    rw [div_le_one (by norm_num : (0:ℚ) < 255)]
    exact h2
  have babs : |fs.pixelMean / 255 - 1/2| ≤ 1/2 := by
    rw [abs_le]
    constructor
    · linarith
    · linarith
  have babs0 : (0:ℚ) ≤ |fs.pixelMean / 255 - 1/2| := abs_nonneg _
  have s3a : (0:ℚ) ≤ min (fs.pixelStd / 128) 1 := le_min (by positivity) (by norm_num)
  have s3b : min (fs.pixelStd / 128) 1 ≤ 1 := min_le_right _ _
  constructor
  · linarith
  · linarith

theorem faceConsistency_bounds (counts : List ℕ) (sizes : List ℚ)
    (hsz : ∀ s ∈ sizes, 0 ≤ s) :
    0 ≤ faceConsistency counts sizes ∧ faceConsistency counts sizes ≤ 1 := by
  unfold faceConsistency
  split_ifs with hc hs
  · norm_num
  · -- counts nonempty, sizes empty
    have hne : counts ≠ [] := by simpa [List.isEmpty_iff] using hc
    have hlen : (0:ℚ) < counts.length := by
      exact_mod_cast List.length_pos.mpr hne
    have hr1 : (0:ℚ) ≤ ((counts.filter (fun c => 0 < c)).length : ℚ) / counts.length := by
      positivity
    have hr2 : ((counts.filter (fun c => 0 < c)).length : ℚ) / counts.length ≤ 1 := by
      rw [div_le_one hlen]
      exact_mod_cast List.length_filter_le _ counts
    constructor
    · linarith
    · linarith
  · -- counts nonempty, sizes nonempty
    have hne : counts ≠ [] := by simpa [List.isEmpty_iff] using hc
    have hlen : (0:ℚ) < counts.length := by
      exact_mod_cast List.length_pos.mpr hne
    have hr1 : (0:ℚ) ≤ ((counts.filter (fun c => 0 < c)).length : ℚ) / counts.length := by
      positivity
    have hr2 : ((counts.filter (fun c => 0 < c)).length : ℚ) / counts.length ≤ 1 := by
      rw [div_le_one hlen]
      exact_mod_cast List.length_filter_le _ counts
    have hvar := listVar_nonneg sizes
    have hmean := listMean_nonneg hsz
    have hz : (0:ℚ) ≤ (listVar sizes / (listMean sizes + 1/1000000)) / 1000 := by
      positivity
    have hm1 : (0:ℚ) ≤ max 0 (1 - listVar sizes / (listMean sizes + 1/1000000) / 1000) :=
      le_max_left 0 _
    have hm2 : max 0 (1 - listVar sizes / (listMean sizes + 1/1000000) / 1000) ≤ 1 :=
      max_le (by norm_num) (by linarith)
    constructor
    · linarith
    · linarith

theorem detectVideoArtifacts_bounds (qualities edges : List ℚ) :
    0 ≤ detectVideoArtifacts qualities edges ∧ detectVideoArtifacts qualities edges ≤ 1 := by
  unfold detectVideoArtifacts
  have hs : (0:ℚ) ≤ (if 1/20 < listVar qualities then 3/10 else 0)
      + (if 19/20 < listMean qualities ∨ listMean qualities < 3/10 then 1/5 else 0)
      + (if listMean edges < 1/20 ∨ 3/10 < listMean edges then 1/5 else 0) := by
    split_ifs <;> norm_num
  exact ⟨le_min hs (by norm_num), min_le_right _ _⟩

theorem syncScoreOf_bounds (o : Option ℚ) (h : ∀ c : ℚ, o = some c → c ≤ 1) :
    0 ≤ syncScoreOf o ∧ syncScoreOf o ≤ 1 := by
  cases o with
  | none => norm_num [syncScoreOf]
  | some c =>
    refine ⟨le_max_left 0 _, max_le (by norm_num) (h c rfl)⟩

theorem voiceNaturalness_bounds (m : MfccStats) :
    0 ≤ voiceNaturalness m ∧ voiceNaturalness m ≤ 1 := by
  unfold voiceNaturalness
  have a1 := ifBand_bounds (1/2 < m.variance ∧ m.variance < 2) (1/2)
    (|m.variance - 5/4| / 2) (by norm_num) (by positivity)
  have a2 := ifBand_bounds (20 < m.rangeAvg ∧ m.rangeAvg < 80) (1/2)
    (|m.rangeAvg - 50| / 100) (by norm_num) (by positivity)
  exact ⟨by linarith [a1.1, a2.1], by linarith [a1.2, a2.2]⟩

theorem spectralAuthenticity_bounds (s : SpectralStats) :
    0 ≤ spectralAuthenticity s ∧ spectralAuthenticity s ≤ 1 := by
  unfold spectralAuthenticity
  have a1 := ifBand_bounds (1000 < s.centroid ∧ s.centroid < 4000) (2/5)
    (|s.centroid - 2500| / 5000) (by norm_num) (by positivity)
  have a2 := ifBand_bounds (1/20 < s.zcr ∧ s.zcr < 3/20) (3/10)
    (|s.zcr - 1/10| / (1/5)) (by norm_num) (by positivity)
  have a3 := ifBand_bounds (500 < s.bandwidth ∧ s.bandwidth < 3000) (3/10)
    (|s.bandwidth - 1750| / 5000) (by norm_num) (by positivity)
  exact ⟨by linarith [a1.1, a2.1, a3.1], by linarith [a1.2, a2.2, a3.2]⟩

theorem audioQualityScore_nonneg (q : QualityStats) (hd : 0 ≤ q.dynRange)
    (hv : 0 ≤ q.voicedFrac) : 0 ≤ audioQualityScore q := by
  unfold audioQualityScore
  have h1 : (0:ℚ) ≤ min q.dynRange 1 := le_min hd (by norm_num)
  have h2 : (0:ℚ) ≤ min (|q.kurt| / 10) 1 := le_min (by positivity) (by norm_num)
  linarith

theorem detectAudioArtifacts_bounds (a : ArtifactStats) :
    0 ≤ detectAudioArtifacts a ∧ detectAudioArtifacts a ≤ 1 := by
  unfold detectAudioArtifacts
  have hs : (0:ℚ) ≤ (if a.stdFreqVar < 1/10 then 1/5 else 0)
      + (if (a.onsetCount : ℚ) * (1/10) < (a.suddenChanges : ℚ) then 3/10 else 0)
      + (if 3/10 < a.silenceFrac ∨ a.silenceFrac < 1/100 then 1/5 else 0)
      + (if 1/100 < a.clipFrac then 3/10 else 0) := by
    split_ifs <;> norm_num
  exact ⟨le_min hs (by norm_num), min_le_right _ _⟩

theorem vnOf_bounds (o : Option MfccStats) : 0 ≤ vnOf o ∧ vnOf o ≤ 1 := by
  cases o with
  | none => norm_num [vnOf]
  | some m => exact voiceNaturalness_bounds m

theorem saOf_bounds (o : Option SpectralStats) : 0 ≤ saOf o ∧ saOf o ≤ 1 := by
  cases o with
  | none => norm_num [saOf]
  | some s => exact spectralAuthenticity_bounds s

theorem aqOf_nonneg (o : Option QualityStats)
    (h : ∀ q : QualityStats, o = some q → 0 ≤ q.dynRange ∧ 0 ≤ q.voicedFrac) :
    0 ≤ aqOf o := by
  cases o with
  | none => norm_num [aqOf]
  | some q => exact audioQualityScore_nonneg q (h q rfl).1 (h q rfl).2

theorem artOf_bounds (o : Option ArtifactStats) : 0 ≤ artOf o ∧ artOf o ≤ 1 := by
  cases o with
  | none => norm_num [artOf]
  | some a => exact detectAudioArtifacts_bounds a

theorem analyzeVideo_range (vf : VideoFeatures) (hv : vf.Valid) :
    0 ≤ (analyzeVideoRecord vf).score ∧ (analyzeVideoRecord vf).score ≤ 100 ∧
    0 ≤ (analyzeVideoRecord vf).confidence ∧ (analyzeVideoRecord vf).confidence ≤ 100 := by
  unfold analyzeVideoRecord
  split_ifs with he
  · norm_num
  · have hne : vf.frames ≠ [] := by simpa [List.isEmpty_iff] using he
    have hmapne : vf.frames.map frameQuality ≠ [] := by
      simpa [List.map_eq_nil] using hne
    have hq : ∀ x ∈ vf.frames.map frameQuality, 0 ≤ x ∧ x ≤ 1 := by
      intro x hx
      rcases List.mem_map.mp hx with ⟨f, hf, rfl⟩
      have := hv.1 f hf
      exact frameQuality_bounds f this.1 this.2.1 this.2.2.1 this.2.2.2.1
    have hm1 : 0 ≤ listMean (vf.frames.map frameQuality) :=
      listMean_nonneg (fun x hx => (hq x hx).1)
    have hm2 : listMean (vf.frames.map frameQuality) ≤ 1 :=
      listMean_le hmapne (fun x hx => (hq x hx).2)
    have hsz : ∀ s ∈ (vf.frames.filter (fun f => 0 < f.faceCount)).map
        FrameStats.largestFaceArea, 0 ≤ s := by
      intro s hs
      rcases List.mem_map.mp hs with ⟨f, hf, rfl⟩
      exact (hv.1 f (List.mem_of_mem_filter hf)).2.2.2.2
    have hfc := faceConsistency_bounds (vf.frames.map FrameStats.faceCount)
      ((vf.frames.filter (fun f => 0 < f.faceCount)).map FrameStats.largestFaceArea) hsz
    have hart := detectVideoArtifacts_bounds (vf.frames.map frameQuality)
      (vf.frames.map FrameStats.edgeFrac)
    have hsync := syncScoreOf_bounds vf.sync hv.2
    have hauth0 : (0:ℚ) ≤ (faceConsistency (vf.frames.map FrameStats.faceCount)
        ((vf.frames.filter (fun f => 0 < f.faceCount)).map FrameStats.largestFaceArea)
          * (3/10)
        + listMean (vf.frames.map frameQuality) * (1/4)
        + (1 - detectVideoArtifacts (vf.frames.map frameQuality)
            (vf.frames.map FrameStats.edgeFrac)) * (1/4)
        + syncScoreOf vf.sync * (3/20)) := by
      linarith [hfc.1, hart.2, hsync.1]
    have hauth1 : (faceConsistency (vf.frames.map FrameStats.faceCount)
        ((vf.frames.filter (fun f => 0 < f.faceCount)).map FrameStats.largestFaceArea)
          * (3/10)
        + listMean (vf.frames.map frameQuality) * (1/4)
        + (1 - detectVideoArtifacts (vf.frames.map frameQuality)
            (vf.frames.map FrameStats.edgeFrac)) * (1/4)
        + syncScoreOf vf.sync * (3/20)) ≤ 95/100 := by
      linarith [hfc.2, hart.1, hsync.2]
    have hc1 : (0:ℚ) ≤ min ((vf.frames.length : ℚ) / 50 * 100) 100 :=
      le_min (by positivity) (by norm_num)
    have hc2 : min ((vf.frames.length : ℚ) / 50 * 100) 100 ≤ 100 := min_le_right _ _
    refine ⟨?_, ?_, ?_, ?_⟩ <;> dsimp only
    · exact pyRound_nonneg _ 2 (by nlinarith)
    · exact pyRound_le_hundred _ 2 (by nlinarith)
    · exact pyRound_nonneg _ 2 hc1
    · exact pyRound_le_hundred _ 2 hc2

theorem analyzeAudio_range (af : Option AudioFeatures)
    (ha : ∀ x : AudioFeatures, af = some x → x.Valid) :
    0 ≤ (analyzeAudioTop af).score ∧ (analyzeAudioTop af).score ≤ 100 ∧
    0 ≤ (analyzeAudioTop af).confidence ∧ (analyzeAudioTop af).confidence ≤ 100 := by
  cases af with
  | none => norm_num [analyzeAudioTop]
  | some x =>
    have hvn := vnOf_bounds x.mfcc
    have hsa := saOf_bounds x.spectral
    have haq := aqOf_nonneg x.quality (ha x rfl)
    have hart := artOf_bounds x.artifacts
    have t1a : (0:ℚ) ≤ min (vnOf x.mfcc) 1 := le_min hvn.1 (by norm_num)
    have t1b : min (vnOf x.mfcc) 1 ≤ 1 := min_le_right _ _
    have t2a : (0:ℚ) ≤ min (saOf x.spectral) 1 := le_min hsa.1 (by norm_num)
    have t2b : min (saOf x.spectral) 1 ≤ 1 := min_le_right _ _
    have t3a : (0:ℚ) ≤ min (aqOf x.quality) 1 := le_min haq (by norm_num)
    have t3b : min (aqOf x.quality) 1 ≤ 1 := min_le_right _ _
    have t4a : (0:ℚ) ≤ min (1 - artOf x.artifacts) 1 :=
      le_min (by linarith [hart.2]) (by norm_num)
    have t4b : min (1 - artOf x.artifacts) 1 ≤ 1 := min_le_right _ _
    have hs1 : (0:ℚ) ≤ min ((min (vnOf x.mfcc) 1 * (2/5)
        + min (saOf x.spectral) 1 * (3/10)
        + min (aqOf x.quality) 1 * (1/5)
        + min (1 - artOf x.artifacts) 1 * (1/10)) * 100) 100 := by
      apply le_min _ (by norm_num)
      nlinarith
    have hs2 : min ((min (vnOf x.mfcc) 1 * (2/5)
        + min (saOf x.spectral) 1 * (3/10)
        + min (aqOf x.quality) 1 * (1/5)
        + min (1 - artOf x.artifacts) 1 * (1/10)) * 100) 100 ≤ 100 := min_le_right _ _
    have hc1 : (0:ℚ) ≤ min (((x.sampleCount : ℚ) / 22050) / 10 * 100) 100 :=
      le_min (by positivity) (by norm_num)
    have hc2 : min (((x.sampleCount : ℚ) / 22050) / 10 * 100) 100 ≤ 100 := min_le_right _ _
    show 0 ≤ (analyzeAudioRecord x).score ∧ (analyzeAudioRecord x).score ≤ 100 ∧
      0 ≤ (analyzeAudioRecord x).confidence ∧ (analyzeAudioRecord x).confidence ≤ 100
    unfold analyzeAudioRecord
    refine ⟨?_, ?_, ?_, ?_⟩ <;> dsimp only
    · exact pyRound_nonneg _ 2 hs1
    · exact pyRound_le_hundred _ 2 hs2
    · exact pyRound_nonneg _ 2 hc1
    · exact pyRound_le_hundred _ 2 hc2

theorem analyzeFactualAccuracy_nonneg (sims : List ℚ) (h : 0 ≤ listMean sims) :
    0 ≤ analyzeFactualAccuracy sims := by
  unfold analyzeFactualAccuracy
  split_ifs
  · norm_num
  · nlinarith
  · nlinarith
  · nlinarith
  · nlinarith
  · nlinarith

theorem textConfidenceOf_bounds (tf : TextFeatures) :
    0 ≤ textConfidenceOf tf ∧ textConfidenceOf tf ≤ 100 := by
  unfold textConfidenceOf
  have hb1 : (0:ℚ) ≤ min ((tf.sims.length : ℚ) / 5 * 100) 100 :=
    le_min (by positivity) (by norm_num)
  have hb2 : min ((tf.sims.length : ℚ) / 5 * 100) 100 ≤ 100 := min_le_right _ _
  split_ifs
  · have hx : (0:ℚ) ≤ min 90 (min ((tf.sims.length : ℚ) / 5 * 100) 100 + 15) :=
      le_min (by norm_num) (by linarith)
    exact ⟨le_min (by norm_num) (by linarith),
      le_trans (min_le_left _ _) (by norm_num)⟩
  · exact ⟨le_min (by norm_num) (by linarith),
      le_trans (min_le_left _ _) (by norm_num)⟩
  · exact ⟨le_min (by norm_num) (by linarith),
      le_trans (min_le_left _ _) (by norm_num)⟩
  · exact ⟨hb1, hb2⟩

theorem textScoreOf_le (tf : TextFeatures) : textScoreOf tf ≤ 100 :=
  min_le_right _ _

theorem textScoreOf_nonneg (tf : TextFeatures) (ht : tf.Valid)
    (h : 0 ≤ listMean tf.sims) : 0 ≤ textScoreOf tf := by
  obtain ⟨hsims, hd0, hd1, hq0, hq1, hn0, hn1, hh0, hh1, hc0, hc1⟩ := ht
  have hfa := analyzeFactualAccuracy_nonneg tf.sims h
  have hadj : 0 ≤ adjustedFactualAccuracy tf.sims tf.contra := by
    unfold adjustedFactualAccuracy
    apply mul_nonneg hfa
    linarith
  have hrel : 0 ≤ textReliability tf := by
    unfold textReliability
    split_ifs with hdb
    · apply le_min (by norm_num)
      have hboost : (0:ℚ) ≤ min (3/20) ((tf.factualDensity - 3/5) * (3/10)) :=
        le_min (by norm_num) (by nlinarith)
      nlinarith
    · nlinarith
  unfold textScoreOf
  apply le_min _ (by norm_num)
  nlinarith

theorem analyzeText_range (tf : TextFeatures) (ht : tf.Valid) :
    (analyzeTextRecord tf).score ≤ 100 ∧
    0 ≤ (analyzeTextRecord tf).confidence ∧ (analyzeTextRecord tf).confidence ≤ 100 ∧
    (0 ≤ listMean tf.sims → 0 ≤ (analyzeTextRecord tf).score) := by
  unfold analyzeTextRecord
  split_ifs with he
  · norm_num
  · have hc := textConfidenceOf_bounds tf
    refine ⟨?_, ?_, ?_, ?_⟩ <;> dsimp only
    · exact pyRound_le_hundred _ 2 (textScoreOf_le tf)
    · exact pyRound_nonneg _ 2 hc.1
    · exact pyRound_le_hundred _ 2 hc.2
    · intro hm
      exact pyRound_nonneg _ 2 (textScoreOf_nonneg tf ht hm)

/-! ### Claim theorems for the analyzers -/

set_option maxRecDepth 4000

/-- Claim C7 (code bug): for a 1000-frame video (step = 20) the extraction
loop stops after reading the first 50 frames, so only the 3 frames 0, 20, 40
are kept — all from the first 5 percent of the video — while the even-stride
sampling described by the specification and by the comment in the source
would keep 50 frames spread up to frame 980. -/
theorem extract_frames_first_window_only :
    extractFrameIndices 1000 50 = [0, 20, 40] ∧
    (specEvenSample 1000 50).length = 50 ∧
    980 ∈ specEvenSample 1000 50 := by
  refine ⟨?_, ?_, ?_⟩ <;> decide

/-- Claim C4 (amended): video and audio scores and confidences lie in
[0, 100], and so do all confidences; the text score is at most 100 and is
nonnegative provided the mean best-match cosine similarity of the claims is
nonnegative. -/
theorem analyzer_output_ranges_amended (vf : VideoFeatures) (af : Option AudioFeatures)
    (tf : TextFeatures) (hv : vf.Valid) (ha : ∀ x : AudioFeatures, af = some x → x.Valid)
    (ht : tf.Valid) :
    (0 ≤ (analyzeVideoRecord vf).score ∧ (analyzeVideoRecord vf).score ≤ 100 ∧
      0 ≤ (analyzeVideoRecord vf).confidence ∧ (analyzeVideoRecord vf).confidence ≤ 100) ∧
    (0 ≤ (analyzeAudioTop af).score ∧ (analyzeAudioTop af).score ≤ 100 ∧
      0 ≤ (analyzeAudioTop af).confidence ∧ (analyzeAudioTop af).confidence ≤ 100) ∧
    ((analyzeTextRecord tf).score ≤ 100 ∧
      0 ≤ (analyzeTextRecord tf).confidence ∧ (analyzeTextRecord tf).confidence ≤ 100 ∧
      (0 ≤ listMean tf.sims → 0 ≤ (analyzeTextRecord tf).score)) :=
  ⟨analyzeVideo_range vf hv, analyzeAudio_range af ha, analyzeText_range tf ht⟩

/-- A single valid frame for the range witness. -/
def c4vf : VideoFeatures where
  frames := [⟨250, 128, 64, 1/10, 1, 900⟩]
  sync := some (1/2)

/-- Valid audio features for the range witness. -/
def c4af : AudioFeatures where
  mfcc := some ⟨1, 50⟩
  spectral := some ⟨2000, 1/10, 1750⟩
  quality := some ⟨1/2, 1/2, 3⟩
  artifacts := some ⟨1, 0, 10, 1/10, 0⟩
  sampleCount := 220500

/-- Valid text features for the range witness. -/
def c4wtf : TextFeatures where
  sims := [9/10, 4/5]
  factualDensity := 1/2
  sentenceQuality := 1/2
  naturalness := 1/2
  halluc := 0
  contra := 0

/-- Claim C4 witness: the amended range statement holds at concrete valid
feature inputs for all three analyzers. -/
theorem analyzer_output_ranges_amended_witness :
    VideoFeatures.Valid c4vf ∧ AudioFeatures.Valid c4af ∧ TextFeatures.Valid c4wtf ∧
    ((0 ≤ (analyzeVideoRecord c4vf).score ∧ (analyzeVideoRecord c4vf).score ≤ 100 ∧
      0 ≤ (analyzeVideoRecord c4vf).confidence ∧
      (analyzeVideoRecord c4vf).confidence ≤ 100) ∧
    (0 ≤ (analyzeAudioTop (some c4af)).score ∧ (analyzeAudioTop (some c4af)).score ≤ 100 ∧
      0 ≤ (analyzeAudioTop (some c4af)).confidence ∧
      (analyzeAudioTop (some c4af)).confidence ≤ 100) ∧
    ((analyzeTextRecord c4wtf).score ≤ 100 ∧
      0 ≤ (analyzeTextRecord c4wtf).confidence ∧
      (analyzeTextRecord c4wtf).confidence ≤ 100 ∧
      (0 ≤ listMean c4wtf.sims → 0 ≤ (analyzeTextRecord c4wtf).score))) := by
  have hv : VideoFeatures.Valid c4vf := by
    constructor
    · intro f hf
      simp only [c4vf, List.mem_singleton] at hf
      subst hf
      norm_num
    · intro c hc
      simp only [c4vf, Option.some.injEq] at hc
      rw [← hc]
      norm_num
  have hva : AudioFeatures.Valid c4af := by
    intro q hq
    simp only [c4af, Option.some.injEq] at hq
    rw [← hq]
    norm_num
  have ha : ∀ x : AudioFeatures, (some c4af : Option AudioFeatures) = some x → x.Valid := by
    intro x hx
    have hx2 : c4af = x := Option.some.inj hx
    rw [← hx2]
    exact hva
  have ht : TextFeatures.Valid c4wtf := by
    constructor
    · intro s hs
      simp only [c4wtf, List.mem_cons, List.mem_singleton, List.not_mem_nil, or_false] at hs
      rcases hs with rfl | rfl <;> norm_num
    · norm_num [c4wtf]
  exact ⟨hv, hva, ht, analyzer_output_ranges_amended c4vf (some c4af) c4wtf hv ha ht⟩

/-- Text features refuting the [0, 100] score range: a single claim whose
best corpus match has cosine similarity -1, minimal heuristic features. -/
def c4tf : TextFeatures where
  sims := [-1]
  factualDensity := 0
  sentenceQuality := 0
  naturalness := 1/5
  halluc := 1
  contra := 0

/-- Claim C4 counterexample: with a negative mean similarity the text
analyzer returns the negative score -6.5, outside [0, 100], on valid
feature inputs. -/
theorem text_score_negative_counterexample :
    TextFeatures.Valid c4tf ∧
    (analyzeTextRecord c4tf).score = -13/2 ∧
    (analyzeTextRecord c4tf).score < 0 := by
  have hs : (analyzeTextRecord c4tf).score = -13/2 := by
    norm_num [analyzeTextRecord, c4tf, textScoreOf, textReliability,
      adjustedFactualAccuracy, analyzeFactualAccuracy, listMean, pyRound, roundHalfEven]
  refine ⟨?_, hs, by rw [hs]; norm_num⟩
  constructor
  · intro s hsm
    simp only [c4tf, List.mem_singleton] at hsm
    subst hsm
    norm_num
  · norm_num [c4tf]

/-- The text confidence as the specification words it: the claim-count base
boosted by +15 and +10, with one final cap at 95. -/
def specTextConfidence (n : ℕ) (d q : ℚ) : ℚ :=
  min 95 (min ((n : ℚ) / 5 * 100) 100
    + (if 3/5 < d then 15 else 0) + (if 4/5 < q then 10 else 0))

/-- The text confidence as the code computes it, in closed natural-number
form: base min(20n, 100); if density > 0.6 add 15 capped at 90; if sentence
quality > 0.8 add 10 capped at 95. -/
def amendedTextConfN (n : ℕ) (d q : ℚ) : ℕ :=
  if 4/5 < q then
    min 95 ((if 3/5 < d then min 90 (min (20 * n) 100 + 15) else min (20 * n) 100) + 10)
  else
    if 3/5 < d then min 90 (min (20 * n) 100 + 15) else min (20 * n) 100

/-- Claim C8 (amended): the returned confidence equals the closed form with
the density boost capped at 90 and the quality boost capped at 95; without
any boost the confidence is min(20·claims, 100) and can reach 100. -/
theorem text_confidence_amended (tf : TextFeatures) (h : ¬ tf.sims.isEmpty = true) :
    (analyzeTextRecord tf).confidence
      = ((amendedTextConfN tf.sims.length tf.factualDensity tf.sentenceQuality : ℕ) : ℚ) := by
  have hconf : textConfidenceOf tf
      = ((amendedTextConfN tf.sims.length tf.factualDensity tf.sentenceQuality : ℕ) : ℚ) := by
    unfold textConfidenceOf amendedTextConfN
    have hbase : min ((tf.sims.length : ℚ) / 5 * 100) 100
        = ((min (20 * tf.sims.length) 100 : ℕ) : ℚ) := by
      rw [Nat.cast_min]
      push_cast
      congr 1
      ring
    split_ifs <;> rw [hbase] <;> push_cast [Nat.cast_min] <;> norm_num
  unfold analyzeTextRecord
  rw [if_neg h]
  dsimp only
  rw [hconf, pyRound_natCast]

/-- Text features with five extracted claims and no boosts. -/
def c8tf : TextFeatures where
  sims := [1/2, 1/2, 1/2, 1/2, 1/2]
  factualDensity := 1/2
  sentenceQuality := 1/2
  naturalness := 1/2
  halluc := 0
  contra := 0

/-- Claim C8 counterexample: with 5 claims and no boost conditions the code
returns confidence 100, above the 95 cap the claim asserts, while the formula
written in the claim would give 95. -/
theorem text_confidence_exceeds_95_counterexample :
    (analyzeTextRecord c8tf).confidence = 100 ∧
    ¬ ((analyzeTextRecord c8tf).confidence ≤ 95) ∧
    specTextConfidence 5 (1/2) (1/2) = 95 := by
  have h1 : (analyzeTextRecord c8tf).confidence = 100 := by
    norm_num [analyzeTextRecord, c8tf, textConfidenceOf, pyRound, roundHalfEven]
  refine ⟨h1, by rw [h1]; norm_num, by norm_num [specTextConfidence]⟩

/-- Text features with one extracted claim for the confidence witness. -/
def c8wtf : TextFeatures where
  sims := [9/10]
  factualDensity := 0
  sentenceQuality := 0
  naturalness := 1/2
  halluc := 0
  contra := 0

/-- Claim C8 witness: the amended closed form evaluated at one claim and no
boosts gives the returned confidence 20. -/
theorem text_confidence_amended_witness :
    (analyzeTextRecord c8wtf).confidence
      = ((amendedTextConfN c8wtf.sims.length c8wtf.factualDensity
          c8wtf.sentenceQuality : ℕ) : ℚ) ∧
    ((amendedTextConfN c8wtf.sims.length c8wtf.factualDensity
        c8wtf.sentenceQuality : ℕ) : ℚ) = 20 := by
  constructor
  · exact text_confidence_amended c8wtf (by simp [c8wtf])
  · norm_num [amendedTextConfN, c8wtf]

/-- The staircase mapping on the mean similarity, as the specification words
it. -/
def specStaircase (s : ℚ) : ℚ :=
  if 85/100 < s then s * (95/100)
  else if 70/100 < s then s * (85/100)
  else if 50/100 < s then s * (70/100)
  else if 30/100 < s then s * (1/2)
  else s * (3/10)

/-- Claim C9: for a non-empty claim list, the factual accuracy used by
analyze_text equals the mean of the per-claim best similarities passed through
the staircase mapping, multiplied by (1 - contradiction_penalty/2). -/
theorem factual_accuracy_staircase (sims : List ℚ) (c : ℚ) (h : sims ≠ []) :
    adjustedFactualAccuracy sims c = specStaircase (listMean sims) * (1 - c * (1/2)) := by
  unfold adjustedFactualAccuracy analyzeFactualAccuracy specStaircase
  rw [if_neg (by simpa [List.isEmpty_iff] using h : ¬ sims.isEmpty = true)]

/-- Claim C9 witness: one claim with similarity 0.9 and penalty 0.5 gives
0.9·0.95·0.75 = 513/800. -/
theorem factual_accuracy_staircase_witness :
    adjustedFactualAccuracy [9/10] (1/2)
      = specStaircase (listMean [(9:ℚ)/10]) * (1 - (1/2) * (1/2)) ∧
    adjustedFactualAccuracy [9/10] (1/2) = 513/800 := by
  constructor
  · exact factual_accuracy_staircase [9/10] (1/2) (by simp)
  · norm_num [adjustedFactualAccuracy, analyzeFactualAccuracy, listMean]

end HCIS
